import Mathlib

/-!
Verification of the hash-join common routines
(`src/query/service/src/pipelines/processors/transforms/hash_join/common.rs`).

The data model is a shallow embedding of the column/value types used by the
join engine.  Bitmaps (`arrow::bitmap::Bitmap`) are lists of booleans; machine
`usize` arithmetic that can panic (underflow, out-of-range indexing) is made
explicit by returning `Option`, where `none` models a Rust panic/abort.
-/

namespace HashJoin

/-- Tri-state match status (`MarkerKind` in `desc.rs`). -/
inductive MarkerKind where
  | True
  | False
  | Null
deriving DecidableEq, Repr

/-- Join types used by the routines under verification (`JoinType` in
`sql::plans`); only the constructors consulted by `common.rs` matter here. -/
inductive JoinType where
  | Inner
  | Left
  | Right
  | Full
  | Single
  | Cross
deriving DecidableEq, Repr

/-- Data types (`common_expression::types::DataType`), restricted to the
representative constructors the embedded columns use. -/
inductive DataType where
  | Null
  | Boolean
  | Int
  | Nullable (inner : DataType)
deriving DecidableEq, Repr

/-- `DataType::wrap_nullable`: wrap in `Nullable` unless already nullable. -/
def DataType.wrap_nullable : DataType → DataType
  | DataType.Nullable t => DataType.Nullable t
  | t => DataType.Nullable t

/-- Scalars (`common_expression::Scalar`), restricted to the representative
constructors used by the embedded columns. -/
inductive Scalar where
  | Null
  | Bool (b : Bool)
  | Int (n : Int)
deriving DecidableEq, Repr

/-- Columns (`common_expression::Column`): an all-null column with a length, a
boolean column backed by a bitmap, a representative non-nullable data column,
and a nullable column pairing an inner column with a validity bitmap
(`NullableColumn { column, validity }`). -/
inductive Column where
  | Null (len : Nat)
  | Boolean (bits : List Bool)
  | Int (vals : List Int)
  | Nullable (column : Column) (validity : List Bool)
deriving DecidableEq, Repr

/-- Column length; for a `NullableColumn` it is the validity bitmap's length. -/
def Column.len : Column → Nat
  | Column.Null l => l
  | Column.Boolean b => b.length
  | Column.Int v => v.length
  | Column.Nullable _ w => w.length

/-- `common_expression::Value`: either a scalar applying to every row or a
column. -/
inductive Value where
  | Scalar (s : Scalar)
  | Column (c : Column)
deriving DecidableEq, Repr

/-- `common_expression::ChunkEntry`. -/
structure ChunkEntry where
  id : Nat
  value : Value
  data_type : DataType
deriving DecidableEq, Repr

/-- `common_expression::Chunk`: a batch of column entries with a row count. -/
structure Chunk where
  columns : List ChunkEntry
  num_rows : Nat
deriving DecidableEq, Repr

/-- `Chunk::empty()`. -/
def Chunk.empty : Chunk := ⟨[], 0⟩

/-- `JoinHashTable::merge_eq_chunk`: clone the probe chunk and append every
build column to it (`Chunk::add_column` keeps the probe row count). -/
def merge_eq_chunk (build_chunk probe_chunk : Chunk) : Chunk :=
  ⟨probe_chunk.columns ++ build_chunk.columns, probe_chunk.num_rows⟩

/-- `JoinHashTable::set_validity` from `common.rs`.

`none` models a Rust panic:
* the scalar branch calls `validity.get_bit(0)`, which panics on an empty
  bitmap;
* the nullable branch computes `validity.len() - col.validity.len()` in
  `usize`, which aborts when the supplied bitmap is strictly shorter than the
  column's own validity (underflow in debug; an absurd `extend_constant`
  allocation in release).

Otherwise the translation follows the source case by case: a scalar is kept or
nulled according to bit 0 with its type wrapped nullable; an all-null column is
returned unchanged; a zero-row nullable column collapses to an all-null column
of the supplied bitmap's length; a nonempty nullable column gets the pointwise
AND of the two bitmaps extended with `false`; any other column is wrapped with
the supplied bitmap as its validity. -/
def set_validity (column : ChunkEntry) (validity : List Bool) : Option ChunkEntry :=
  match column.value with
  | Value.Scalar s =>
    match validity with
    | [] => none
    | b :: _ =>
      if b then
        some ⟨column.id, Value.Scalar s, column.data_type.wrap_nullable⟩
      else
        some ⟨column.id, Value.Scalar Scalar.Null, column.data_type.wrap_nullable⟩
  | Value.Column col =>
    match col with
    | Column.Null _ => some column
    | Column.Nullable inner w =>
      if w.length = 0 then
        some ⟨column.id, Value.Column (Column.Null validity.length), column.data_type⟩
      else if validity.length < w.length then
        none
      else
        some ⟨column.id,
          Value.Column (Column.Nullable inner
            (List.zipWith (· && ·) validity w ++
              List.replicate (validity.length - w.length) false)),
          column.data_type⟩
    | other =>
      some ⟨column.id, Value.Column (Column.Nullable other validity), column.data_type⟩

/-- `Bitmap::unset_bits`: the number of `false` bits. -/
def unset_bits (w : List Bool) : Nat := w.count false

/-- Modelled from the spec: `combine_validities_3` lives in the external
`common_expression::arrow` crate (not under the sources shown); the spec's
"combining an existing nullable mask with an externally supplied mask via
logical AND" fixes its semantics on present masks as the pointwise AND, with an
absent mask acting as the identity. -/
def combine_validities_3 : Option (List Bool) → Option (List Bool) → Option (List Bool)
  | some a, some b => some (List.zipWith (· && ·) a b)
  | some a, none => some a
  | none, some b => some b
  | none, none => none

/-- The accumulation loop inside `init_markers`: scan the columns in order,
combining validities.  A nullable column with no unset bit, or any plain
(non-null, non-nullable) column, replaces the accumulator with an all-true
bitmap and stops the scan (`break` in the source); a `Column::Null` column is
skipped; a nullable column with unset bits is AND-combined into the
accumulator. -/
def mark_valids (num_rows : Nat) : List Column → Option (List Bool) → Option (List Bool)
  | [], valids => valids
  | c :: rest, valids =>
    match c with
    | Column.Nullable _ w =>
      if unset_bits w = 0 then some (List.replicate num_rows true)
      else mark_valids num_rows rest (combine_validities_3 valids (some w))
    | Column.Null _ => mark_valids num_rows rest valids
    | _ => some (List.replicate num_rows true)

/-- `JoinHashTable::init_markers`: markers start as `num_rows` copies of
`False`; when some column is `Null`/`Nullable`, the scanned validity (if any)
turns every invalid position into `Null`.  The final loop reads
`valids.get_bit(idx)` over indices `0..num_rows` on the all-`False` vector,
rendered here as a map over `List.range num_rows` (out-of-range bits cannot
occur in the source, where every bitmap has `num_rows` bits). -/
def init_markers (cols : List (Column × DataType)) (num_rows : Nat) : List MarkerKind :=
  if cols.any (fun cd =>
      match cd.1 with
      | Column.Null _ => true
      | Column.Nullable _ _ => true
      | _ => false) then
    match mark_valids num_rows (cols.map Prod.fst) none with
    | some v =>
      (List.range num_rows).map
        (fun idx => if v.getD idx false = true then MarkerKind.False else MarkerKind.Null)
    | none => List.replicate num_rows MarkerKind.False
  else
    List.replicate num_rows MarkerKind.False

/-- Whether a column holds a SQL null at row `i` (an all-null column is null at
every stored row; a nullable column is null where its validity bit is unset). -/
def column_holds_null_at (c : Column) (i : Nat) : Bool :=
  match c with
  | Column.Null l => decide (i < l)
  | Column.Nullable _ w => !(w.getD i true)
  | _ => false

/-- Per-marker adjustment in `create_marker_chunk`: a `False` marker degrades
to `Null` when `has_null` is set. -/
def adjust_marker (has_null : Bool) (m : MarkerKind) : MarkerKind :=
  if m = MarkerKind.False ∧ has_null = true then MarkerKind.Null else m

/-- The validity bitmap built by `create_marker_chunk`: `false` exactly for
(adjusted) `Null` markers. -/
def create_marker_validity (has_null : Bool) (markers : List MarkerKind) : List Bool :=
  markers.map (fun m => if adjust_marker has_null m = MarkerKind.Null then false else true)

/-- The boolean bitmap built by `create_marker_chunk`: `true` exactly for
(adjusted) `True` markers. -/
def create_marker_bits (has_null : Bool) (markers : List MarkerKind) : List Bool :=
  markers.map (fun m => if adjust_marker has_null m = MarkerKind.True then true else false)

/-- `JoinHashTable::create_marker_chunk`: a single nullable boolean column
whose row count is the validity bitmap's length. -/
def create_marker_chunk (has_null : Bool) (markers : List MarkerKind) : Chunk :=
  ⟨[⟨0,
     Value.Column (Column.Nullable (Column.Boolean (create_marker_bits has_null markers))
       (create_marker_validity has_null markers)),
     DataType.Nullable DataType.Boolean⟩],
   (create_marker_validity has_null markers).length⟩

/-- The result of `Chunk::cast_to_nonull_boolean` on the evaluated residual
predicate: either one scalar boolean for every row or a boolean bitmap. -/
inductive FilterValue where
  | Scalar (b : Bool)
  | Column (bits : List Bool)
deriving DecidableEq, Repr

/-- The result shaping of `JoinHashTable::get_other_filters` after expression
evaluation and the non-null boolean cast (both external collaborators,
abstracted as the `FilterValue` input): a scalar yields `(None, v, !v)`; a
column yields the bitmap plus `all_true = (unset_bits = 0)` and
`all_false = (len = unset_bits)`. -/
def get_other_filters_core (v : FilterValue) : Option (List Bool) × Bool × Bool :=
  match v with
  | FilterValue.Scalar b => (none, b, !b)
  | FilterValue.Column s =>
    let count_zeros := unset_bits s
    let all_false := s.length == count_zeros
    (some s, count_zeros == 0, all_false)

/-- Whether a column is a `Column::Nullable`. -/
def is_nullable_column : Column → Bool
  | Column.Nullable _ _ => true
  | _ => false

/-- The result shaping of `JoinHashTable::get_nullable_filter_column` after
expression evaluation and `convert_to_full_column` (external collaborators,
abstracted as the `Column` input): an already-nullable column is returned
as-is, anything else is wrapped with an all-true validity of its length. -/
def get_nullable_filter_column_core (c : Column) : Column :=
  match c with
  | Column.Nullable inner w => Column.Nullable inner w
  | other => Column.Nullable other (List.replicate other.len true)

/-- A pointer into Row Space (`RowPtr` in `row.rs`): chunk index, row index,
and the optional marker used by full-join anti-matching. -/
structure RowPtr where
  chunk_index : Nat
  row_index : Nat
  marker : Option MarkerKind
deriving DecidableEq, Repr

/-- `RowPtr::new`: a pointer with no marker. -/
def RowPtr.new (chunk_index row_index : Nat) : RowPtr := ⟨chunk_index, row_index, none⟩

/-- Read `row_state[ci][ri]`; `none` models the Rust index panic. -/
def lookup2 (rs : List (List Nat)) (ci ri : Nat) : Option Nat :=
  match rs.get? ci with
  | some row => row.get? ri
  | none => none

/-- Increment `row_state[ci][ri]`; `none` models the Rust index panic. -/
def bump2 (rs : List (List Nat)) (ci ri : Nat) : Option (List (List Nat)) :=
  match rs.get? ci with
  | none => none
  | some row =>
    match row.get? ri with
    | none => none
    | some v => some (rs.set ci (row.set ri (v + 1)))

/-- The accumulation loop of `row_state_for_right_join` over the recorded
build-side pointers: a full-join pointer marked `False` is skipped, every
other pointer increments its row's counter. -/
def apply_build_indexes (jt : JoinType) : List RowPtr → List (List Nat) → Option (List (List Nat))
  | [], rs => some rs
  | p :: rest, rs =>
    if jt = JoinType.Full ∧ p.marker = some MarkerKind.False then
      apply_build_indexes jt rest rs
    else
      match bump2 rs p.chunk_index p.row_index with
      | some next => apply_build_indexes jt rest next
      | none => none

/-- `JoinHashTable::row_state_for_right_join`: one zero counter per stored
row (the stored chunks are abstracted by their row counts `chunk_rows`),
then the recorded build indexes are applied. -/
def row_state_for_right_join (jt : JoinType) (build_indexes : List RowPtr)
    (chunk_rows : List Nat) : Option (List (List Nat)) :=
  apply_build_indexes jt build_indexes (chunk_rows.map (fun n => List.replicate n 0))

/-- The inner loop of `find_unmatched_build_indexes` over rows `0..n` of chunk
`ci`: push `RowPtr::new ci row` whenever the counter is zero. -/
def find_rows (rs : List (List Nat)) (ci : Nat) : Nat → Option (List RowPtr)
  | 0 => some []
  | n + 1 =>
    match find_rows rs ci n, lookup2 rs ci n with
    | some front, some cnt =>
      some (if cnt = 0 then front ++ [RowPtr.new ci n] else front)
    | _, _ => none

/-- The outer loop of `find_unmatched_build_indexes` over the stored chunks,
`ci` being the index of the first chunk of the list. -/
def find_chunks (rs : List (List Nat)) : List Nat → Nat → Option (List RowPtr)
  | [], _ => some []
  | n :: rest, ci =>
    match find_rows rs ci n, find_chunks rs rest (ci + 1) with
    | some here, some there => some (here ++ there)
    | _, _ => none

/-- `JoinHashTable::find_unmatched_build_indexes`: collect, in chunk order and
row order, a `RowPtr` for every stored row whose `row_state` counter is zero. -/
def find_unmatched_build_indexes (chunk_rows : List Nat)
    (row_state : List (List Nat)) : Option (List RowPtr) :=
  find_chunks row_state chunk_rows 0

/-- `JoinHashTable::rest_chunk`.  External collaborators are abstracted as
inputs: `rest_probe_empty` is `rest_probe_chunks.is_empty()`, `probe_chunk`
stands for `Chunk::concat(&rest_probe_chunks)`, `build_chunk` for
`row_space.gather(&rest_build_indexes)`, and `data_chunks_empty` for
`row_space.data_chunks().is_empty()`.  For left/single/full joins the build
columns are scalar-null-filled when Row Space holds no batches and otherwise
wrapped through `set_validity` with the accumulated bitmap. -/
def rest_chunk (jt : JoinType) (rest_probe_empty : Bool) (probe_chunk build_chunk : Chunk)
    (validity : List Bool) (data_chunks_empty : Bool) : Option Chunk :=
  if rest_probe_empty then some Chunk.empty
  else if jt = JoinType.Left ∨ jt = JoinType.Single ∨ jt = JoinType.Full then
    let num_rows := validity.length
    if data_chunks_empty then
      some (merge_eq_chunk
        ⟨build_chunk.columns.map
          (fun c => ⟨c.id, Value.Scalar Scalar.Null, c.data_type⟩), num_rows⟩
        probe_chunk)
    else
      match build_chunk.columns.mapM (fun c => set_validity c validity) with
      | some cols => some (merge_eq_chunk ⟨cols, num_rows⟩ probe_chunk)
      | none => none
  else
    some (merge_eq_chunk build_chunk probe_chunk)

/-! ### Helper lemmas -/

theorem get?_some_lt {α : Type} {l : List α} {i : Nat} {a : α} (h : l.get? i = some a) :
    i < l.length :=
  (List.get?_eq_some.mp h).1

theorem exists_get?_of_lt {α : Type} {l : List α} {i : Nat} (h : i < l.length) :
    ∃ a, l.get? i = some a :=
  ⟨l.get ⟨i, h⟩, List.get?_eq_get h⟩

theorem getD_default_eq {l : List Bool} {i : Nat} (h : i < l.length) (d d' : Bool) :
    l.getD i d = l.getD i d' := by
  rw [List.getD_eq_getD_get?, List.getD_eq_getD_get?]
  obtain ⟨a, ha⟩ := exists_get?_of_lt h
  rw [ha]
  rfl

theorem getD_of_get? {l : List Bool} {i : Nat} {a : Bool} (h : l.get? i = some a) (d : Bool) :
    l.getD i d = a := by
  rw [List.getD_eq_getD_get?, h]
  rfl

theorem get?_of_getD {l : List Bool} {i : Nat} (h : i < l.length) (d : Bool) :
    l.get? i = some (l.getD i d) := by
  obtain ⟨a, ha⟩ := exists_get?_of_lt h
  rw [ha, getD_of_get? ha]

theorem getD_replicate {n i : Nat} (b : Bool) (h : i < n) :
    (List.replicate n b).getD i false = b := by
  rw [List.getD_eq_getD_get?]
  simp [List.get?_eq_getElem?, List.getElem?_replicate, h]

theorem zipWith_and_absorb : ∀ (v w : List Bool),
    List.zipWith (· && ·) v (List.zipWith (· && ·) v w) = List.zipWith (· && ·) v w
  | [], _ => rfl
  | _ :: _, [] => rfl
  | a :: v, b :: w => by
    show (a && (a && b)) :: List.zipWith (· && ·) v (List.zipWith (· && ·) v w)
        = (a && b) :: List.zipWith (· && ·) v w
    refine congrArg₂ _ ?_ (zipWith_and_absorb v w)
    cases a <;> cases b <;> rfl

theorem zipWith_and_get?_false : ∀ (a b : List Bool) (i : Nat),
    (List.zipWith (· && ·) a b).get? i = some false →
    a.get? i = some false ∨ b.get? i = some false
  | [], _, _, h => by simp at h
  | _ :: _, [], _, h => by simp at h
  | a :: as, b :: bs, 0, h => by
    rw [List.zipWith_cons_cons] at h
    simp only [List.get?_cons_zero, Option.some.injEq] at h
    cases a <;> cases b <;> simp_all
  | a :: as, b :: bs, i + 1, h => by
    rw [List.zipWith_cons_cons] at h
    simp only [List.get?_cons_succ] at h ⊢
    exact zipWith_and_get?_false as bs i h

theorem and_fill_getD : ∀ (v w : List Bool), w.length ≤ v.length → ∀ i,
    (List.zipWith (· && ·) v w ++ List.replicate (v.length - w.length) false).getD i false
      = (v.getD i false && w.getD i false)
  | v, [], _, i => by
    simp only [List.zipWith_nil_right, List.nil_append, Nat.sub_zero, List.getD_nil,
      Bool.and_false]
    by_cases h : i < v.length
    · exact getD_replicate false (by simpa using h)
    · rw [List.getD_eq_default]
      simpa using Nat.le_of_not_lt h
  | [], _ :: _, hle, i => by simp at hle
  | a :: v, b :: w, hle, i => by
    have hlen : (a :: v).length - (b :: w).length = v.length - w.length := by
      simp [Nat.succ_sub_succ]
    cases i with
    | zero => simp
    | succ i =>
      simp only [List.zipWith_cons_cons, List.cons_append, List.getD_cons_succ, hlen]
      exact and_fill_getD v w (Nat.le_of_succ_le_succ hle) i

/-! ### Claim theorems -/

/-- C2 (counterexample): the claim promises that `set_validity` never crashes
regardless of which mask is shorter, but on a two-row nullable column and a
one-bit supplied bitmap the source computes `validity.len() - col.validity.len()`
in `usize`, which aborts; the embedding returns `none` there instead of a
column. -/
theorem set_validity_short_mask_cex :
    set_validity ⟨0, Value.Column (Column.Nullable (Column.Boolean [true, true]) [true, true]),
      DataType.Nullable DataType.Boolean⟩ [true] = none := by decide

/-- C2 (amended): for a nonempty nullable column entry and a supplied bitmap at
least as long as the column's validity, `set_validity` succeeds and returns the
same inner column and data type with a validity of the supplied bitmap's
length whose every position is the logical AND of the two masks, positions
past the existing mask being filled with `false`; when the supplied bitmap is
strictly shorter the call fails (the modelled panic). -/
theorem set_validity_and_pads (id : Nat) (c : Column) (w : List Bool) (dt : DataType)
    (v : List Bool) (h0 : w ≠ []) (hle : w.length ≤ v.length) :
    set_validity ⟨id, Value.Column (Column.Nullable c w), dt⟩ v =
      some ⟨id, Value.Column (Column.Nullable c
        (List.zipWith (· && ·) v w ++ List.replicate (v.length - w.length) false)), dt⟩
    ∧ (List.zipWith (· && ·) v w ++ List.replicate (v.length - w.length) false).length
        = v.length
    ∧ ∀ i, (List.zipWith (· && ·) v w
          ++ List.replicate (v.length - w.length) false).getD i false
        = (v.getD i false && w.getD i false) := by
  have h0' : ¬ w.length = 0 := by simpa [List.length_eq_zero] using h0
  have hv : ¬ v.length < w.length := by omega
  refine ⟨by simp [set_validity, h0', hv], ?_, and_fill_getD v w hle⟩
  simp only [List.length_append, List.length_zipWith, List.length_replicate]
  omega

/-- C2 (witness). -/
theorem set_validity_and_pads_witness :
    set_validity ⟨0, Value.Column (Column.Nullable (Column.Boolean [true, false]) [true, false]),
        DataType.Nullable DataType.Boolean⟩ [false, true, true] =
      some ⟨0, Value.Column (Column.Nullable (Column.Boolean [true, false])
        (List.zipWith (· && ·) [false, true, true] [true, false] ++
          List.replicate ([false, true, true].length - [true, false].length) false)),
        DataType.Nullable DataType.Boolean⟩ :=
  (set_validity_and_pads 0 (Column.Boolean [true, false]) [true, false]
    (DataType.Nullable DataType.Boolean) [false, true, true] (by decide) (by decide)).1

/-- C4: `create_marker_chunk` produces one nullable boolean column of the same
length as the marker vector; a `True` marker becomes a valid `true`, a `Null`
marker becomes SQL NULL, and a `False` marker becomes NULL when `has_null`
holds and a valid `false` otherwise. -/
theorem create_marker_chunk_pointwise (hn : Bool) (ms : List MarkerKind) (i : Nat)
    (m : MarkerKind) (h : ms.get? i = some m) :
    (create_marker_chunk hn ms).columns =
      [⟨0, Value.Column (Column.Nullable (Column.Boolean (create_marker_bits hn ms))
        (create_marker_validity hn ms)), DataType.Nullable DataType.Boolean⟩]
    ∧ (create_marker_chunk hn ms).num_rows = ms.length
    ∧ (create_marker_validity hn ms).length = ms.length
    ∧ (create_marker_bits hn ms).length = ms.length
    ∧ (m = MarkerKind.True →
        (create_marker_validity hn ms).get? i = some true
        ∧ (create_marker_bits hn ms).get? i = some true)
    ∧ (m = MarkerKind.Null → (create_marker_validity hn ms).get? i = some false)
    ∧ (m = MarkerKind.False →
        (hn = true → (create_marker_validity hn ms).get? i = some false)
        ∧ (hn = false → (create_marker_validity hn ms).get? i = some true
            ∧ (create_marker_bits hn ms).get? i = some false)) := by
  refine ⟨rfl, by simp [create_marker_chunk, create_marker_validity], ?_, ?_, ?_, ?_, ?_⟩
  · simp [create_marker_validity]
  · simp [create_marker_bits]
  · rintro rfl
    constructor
    · simp only [create_marker_validity, List.get?_map, h, Option.map_some']
      rfl
    · simp only [create_marker_bits, List.get?_map, h, Option.map_some']
      rfl
  · rintro rfl
    simp only [create_marker_validity, List.get?_map, h, Option.map_some']
    rfl
  · rintro rfl
    constructor
    · rintro rfl
      simp only [create_marker_validity, List.get?_map, h, Option.map_some']
      rfl
    · rintro rfl
      constructor
      · simp only [create_marker_validity, List.get?_map, h, Option.map_some']
        rfl
      · simp only [create_marker_bits, List.get?_map, h, Option.map_some']
        rfl

/-- C4 (witness). -/
theorem create_marker_chunk_pointwise_witness :
    (create_marker_validity true [MarkerKind.Null]).get? 0 = some false :=
  (create_marker_chunk_pointwise true [MarkerKind.Null] 0 MarkerKind.Null rfl).2.2.2.2.2.1 rfl

/-- C5: `get_other_filters` returns no bitmap and the complementary flag pair
on a scalar predicate result; on a column result it returns the bitmap itself,
`all_true` exactly when the bitmap has no `false` bit, and `all_false` exactly
when every bit is `false`. -/
theorem get_other_filters_flags (b : Bool) (bits : List Bool) :
    get_other_filters_core (FilterValue.Scalar b) = (none, b, !b)
    ∧ (get_other_filters_core (FilterValue.Column bits)).1 = some bits
    ∧ ((get_other_filters_core (FilterValue.Column bits)).2.1 = true ↔ false ∉ bits)
    ∧ ((get_other_filters_core (FilterValue.Column bits)).2.2 = true ↔ ∀ x ∈ bits, x = false) := by
  refine ⟨rfl, rfl, ?_, ?_⟩
  · simp [get_other_filters_core, unset_bits, List.count_eq_zero]
  · simp only [get_other_filters_core, unset_bits, beq_iff_eq]
    constructor
    · intro hlen x hx
      exact (List.count_eq_length.mp hlen.symm x hx).symm
    · intro hall
      exact (List.count_eq_length.mpr (fun x hx => (hall x hx).symm)).symm

/-- C6: applying `set_validity` to a zero-row nullable column entry returns an
all-null column of the supplied bitmap's length, with the entry's id and data
type unchanged, rather than failing. -/
theorem set_validity_empty_nullable (id : Nat) (c : Column) (w : List Bool) (dt : DataType)
    (v : List Bool) (h : (Column.Nullable c w).len = 0) :
    set_validity ⟨id, Value.Column (Column.Nullable c w), dt⟩ v =
      some ⟨id, Value.Column (Column.Null v.length), dt⟩ := by
  simp only [Column.len] at h
  simp [set_validity, h]

/-- C6 (witness). -/
theorem set_validity_empty_nullable_witness :
    set_validity ⟨3, Value.Column (Column.Nullable (Column.Boolean []) []),
        DataType.Nullable DataType.Boolean⟩ [true, false] =
      some ⟨3, Value.Column (Column.Null 2), DataType.Nullable DataType.Boolean⟩ :=
  set_validity_empty_nullable 3 (Column.Boolean []) [] (DataType.Nullable DataType.Boolean)
    [true, false] (by decide)

/-- C7: for left/single/full joins with a nonempty deferred probe set and an
empty Row Space, `rest_chunk` scalar-null-fills every build-side entry
(keeping id and data type) instead of wrapping through the validity bitmap,
and merges them after the probe columns. -/
theorem rest_chunk_scalar_null_fill (jt : JoinType) (probe_chunk build_chunk : Chunk)
    (validity : List Bool)
    (hjt : jt = JoinType.Left ∨ jt = JoinType.Single ∨ jt = JoinType.Full) :
    rest_chunk jt false probe_chunk build_chunk validity true =
      some ⟨probe_chunk.columns ++ build_chunk.columns.map
          (fun c => ⟨c.id, Value.Scalar Scalar.Null, c.data_type⟩),
        probe_chunk.num_rows⟩ := by
  rcases hjt with rfl | rfl | rfl <;> simp [rest_chunk, merge_eq_chunk]

/-- C7 (witness). -/
theorem rest_chunk_scalar_null_fill_witness :
    rest_chunk JoinType.Left false ⟨[⟨0, Value.Scalar (Scalar.Int 1), DataType.Int⟩], 1⟩
        ⟨[⟨1, Value.Scalar (Scalar.Int 2), DataType.Int⟩], 1⟩ [true] true =
      some ⟨[⟨0, Value.Scalar (Scalar.Int 1), DataType.Int⟩,
             ⟨1, Value.Scalar Scalar.Null, DataType.Int⟩], 1⟩ := by
  simpa using rest_chunk_scalar_null_fill JoinType.Left
    ⟨[⟨0, Value.Scalar (Scalar.Int 1), DataType.Int⟩], 1⟩
    ⟨[⟨1, Value.Scalar (Scalar.Int 2), DataType.Int⟩], 1⟩ [true] (Or.inl rfl)

/-- C8: `set_validity` is idempotent on an already-nullable column entry and a
bitmap of matching length: applying it again with the same bitmap returns the
first result unchanged. -/
theorem set_validity_idempotent (id : Nat) (c : Column) (w : List Bool) (dt : DataType)
    (v : List Bool) (hlen : v.length = w.length) :
    ∃ e, set_validity ⟨id, Value.Column (Column.Nullable c w), dt⟩ v = some e ∧
      set_validity e v = some e := by
  by_cases h0 : w.length = 0
  · refine ⟨⟨id, Value.Column (Column.Null v.length), dt⟩, ?_, ?_⟩
    · simp [set_validity, h0]
    · simp [set_validity]
  · have hv : ¬ v.length < w.length := by omega
    have hsub : v.length - w.length = 0 := by omega
    refine ⟨⟨id, Value.Column (Column.Nullable c (List.zipWith (· && ·) v w)), dt⟩, ?_, ?_⟩
    · simp [set_validity, h0, hv, hsub]
    · have hlen2 : (List.zipWith (· && ·) v w).length = w.length := by
        simp only [List.length_zipWith]
        omega
      have h02 : ¬ (List.zipWith (· && ·) v w).length = 0 := by omega
      have hv2 : ¬ v.length < (List.zipWith (· && ·) v w).length := by omega
      have hsub2 : v.length - (List.zipWith (· && ·) v w).length = 0 := by omega
      simp only [set_validity]
      rw [if_neg h02, if_neg hv2, hsub2]
      simp [zipWith_and_absorb]

/-- C8 (witness). -/
theorem set_validity_idempotent_witness :
    ∃ e, set_validity ⟨0, Value.Column (Column.Nullable (Column.Boolean [true, false])
        [true, true]), DataType.Nullable DataType.Boolean⟩ [true, false] = some e ∧
      set_validity e [true, false] = some e :=
  set_validity_idempotent 0 (Column.Boolean [true, false]) [true, true]
    (DataType.Nullable DataType.Boolean) [true, false] (by decide)

/-- C9: the result of `get_nullable_filter_column` is always a nullable
column: a nullable evaluation result is passed through unchanged, any other
result is wrapped with an all-true validity of its own length. -/
theorem get_nullable_filter_column_always_nullable (c : Column) :
    is_nullable_column (get_nullable_filter_column_core c) = true
    ∧ (is_nullable_column c = true → get_nullable_filter_column_core c = c)
    ∧ (is_nullable_column c = false →
        get_nullable_filter_column_core c = Column.Nullable c (List.replicate c.len true)) := by
  cases c <;> simp [is_nullable_column, get_nullable_filter_column_core]

/-- C9 (witness). -/
theorem get_nullable_filter_column_always_nullable_witness :
    get_nullable_filter_column_core (Column.Boolean [true, false]) =
      Column.Nullable (Column.Boolean [true, false])
        (List.replicate (Column.Boolean [true, false]).len true) :=
  (get_nullable_filter_column_always_nullable (Column.Boolean [true, false])).2.2 (by decide)

/-- C10: on a scalar entry `set_validity` consults only bit 0 of the supplied
bitmap: a set bit keeps the scalar, an unset bit turns it into `Scalar::Null`,
the data type is wrapped nullable either way, and any two nonempty bitmaps
agreeing on bit 0 give the same result. -/
theorem set_validity_scalar_bit0 (id : Nat) (s : Scalar) (dt : DataType) (v : List Bool)
    (h : v ≠ []) :
    set_validity ⟨id, Value.Scalar s, dt⟩ v =
      some ⟨id, Value.Scalar (if v.headD false = true then s else Scalar.Null),
        dt.wrap_nullable⟩
    ∧ ∀ v' : List Bool, v' ≠ [] → v'.headD false = v.headD false →
        set_validity ⟨id, Value.Scalar s, dt⟩ v' = set_validity ⟨id, Value.Scalar s, dt⟩ v := by
  cases v with
  | nil => exact absurd rfl h
  | cons b t =>
    constructor
    · cases b <;> simp [set_validity]
    · intro v' h' hb
      cases v' with
      | nil => exact absurd rfl h'
      | cons b' t' =>
        simp only [List.headD_cons] at hb
        subst hb
        cases b' <;> simp [set_validity]

/-- Two row-state matrices with the same outer length and the same row length
at every index. -/
def same_shape (a b : List (List Nat)) : Prop :=
  a.length = b.length ∧ ∀ k, (a.get? k).map List.length = (b.get? k).map List.length

theorem same_shape_refl (a : List (List Nat)) : same_shape a a :=
  ⟨rfl, fun _ => rfl⟩

theorem same_shape_trans {a b c : List (List Nat)}
    (h1 : same_shape a b) (h2 : same_shape b c) : same_shape a c :=
  ⟨h1.1.trans h2.1, fun k => (h1.2 k).trans (h2.2 k)⟩

theorem bump2_same_shape {rs rs' : List (List Nat)} {ci ri : Nat}
    (h : bump2 rs ci ri = some rs') : same_shape rs rs' := by
  cases hrow : rs.get? ci with
  | none =>
    rw [List.get?_eq_getElem?] at hrow
    simp [bump2, hrow] at h
  | some row =>
    cases hv : row.get? ri with
    | none =>
      rw [List.get?_eq_getElem?] at hrow hv
      simp [bump2, hrow, hv] at h
    | some v =>
      rw [List.get?_eq_getElem?] at hrow hv
      simp only [bump2, List.get?_eq_getElem?, hrow, hv, Option.some.injEq] at h
      subst h
      rw [← List.get?_eq_getElem?] at hrow
      refine ⟨(List.length_set ..).symm, fun k => ?_⟩
      by_cases hk : ci = k
      · subst hk
        rw [List.get?_set_eq_of_lt _ (get?_some_lt hrow), hrow]
        simp
      · rw [List.get?_set_ne _ _ hk]

theorem apply_build_indexes_shape (jt : JoinType) : ∀ (bi : List RowPtr)
    (rs rs' : List (List Nat)), apply_build_indexes jt bi rs = some rs' → same_shape rs rs'
  | [], rs, rs', h => by
    injection h with h
    subst h
    exact same_shape_refl rs
  | p :: rest, rs, rs', h => by
    unfold apply_build_indexes at h
    by_cases hskip : jt = JoinType.Full ∧ p.marker = some MarkerKind.False
    · rw [if_pos hskip] at h
      exact apply_build_indexes_shape jt rest rs rs' h
    · rw [if_neg hskip] at h
      cases hb : bump2 rs p.chunk_index p.row_index with
      | none => rw [hb] at h; cases h
      | some mid =>
        rw [hb] at h
        exact same_shape_trans (bump2_same_shape hb)
          (apply_build_indexes_shape jt rest mid rs' h)

theorem row_state_shape {jt : JoinType} {bi : List RowPtr} {cr : List Nat}
    {rs : List (List Nat)} (h : row_state_for_right_join jt bi cr = some rs) :
    rs.length = cr.length ∧
      ∀ k, k < cr.length → ∃ row, rs.get? k = some row ∧ row.length = cr.getD k 0 := by
  obtain ⟨h1, h2⟩ := apply_build_indexes_shape jt bi _ rs h
  constructor
  · rw [← h1, List.length_map]
  · intro k hk
    obtain ⟨n, hn⟩ := exists_get?_of_lt (l := cr) hk
    have hm := h2 k
    rw [List.get?_map, hn] at hm
    cases hr : rs.get? k with
    | none => rw [hr] at hm; cases hm
    | some row =>
      rw [hr] at hm
      simp only [Option.map_some', List.length_replicate] at hm
      injection hm with hm
      refine ⟨row, rfl, ?_⟩
      rw [← hm, List.getD_eq_getD_get?, hn]
      rfl

theorem find_rows_isSome {rs : List (List Nat)} {ci : Nat} {row : List Nat}
    (hrow : rs.get? ci = some row) :
    ∀ n, n ≤ row.length → ∃ L, find_rows rs ci n = some L
  | 0, _ => ⟨[], rfl⟩
  | n + 1, h => by
    obtain ⟨L, hL⟩ := find_rows_isSome hrow n (Nat.le_of_succ_le h)
    obtain ⟨cnt, hcnt⟩ := exists_get?_of_lt (l := row) (Nat.lt_of_succ_le h)
    have hlk : lookup2 rs ci n = some cnt := by
      unfold lookup2
      rw [hrow]
      exact hcnt
    refine ⟨if cnt = 0 then L ++ [RowPtr.new ci n] else L, ?_⟩
    unfold find_rows
    rw [hL, hlk]

theorem mem_find_rows {rs : List (List Nat)} {ci : Nat} :
    ∀ (n : Nat) (L : List RowPtr), find_rows rs ci n = some L → ∀ (ci' ri : Nat),
      (RowPtr.new ci' ri ∈ L ↔ ci' = ci ∧ ri < n ∧ lookup2 rs ci ri = some 0)
  | 0, L, h, ci', ri => by
    injection h with h
    subst h
    simp
  | n + 1, L, h, ci', ri => by
    unfold find_rows at h
    cases hf : find_rows rs ci n with
    | none => rw [hf] at h; cases h
    | some front =>
      rw [hf] at h
      cases hl : lookup2 rs ci n with
      | none => rw [hl] at h; cases h
      | some cnt =>
        rw [hl] at h
        injection h with h
        subst h
        have ih := mem_find_rows n front hf ci' ri
        by_cases hc : cnt = 0
        · rw [if_pos hc]
          rw [hc] at hl
          simp only [List.mem_append, List.mem_singleton]
          constructor
          · rintro (hm | hm)
            · obtain ⟨h1, h2, h3⟩ := ih.mp hm
              exact ⟨h1, Nat.lt_succ_of_lt h2, h3⟩
            · have h12 : ci' = ci ∧ ri = n := by
                simpa [RowPtr.new, RowPtr.mk.injEq] using hm
              refine ⟨h12.1, by omega, ?_⟩
              rw [h12.2]
              exact hl
          · rintro ⟨rfl, hlt, hz⟩
            by_cases hr : ri = n
            · right
              rw [hr]
            · left
              exact ih.mpr ⟨rfl, by omega, hz⟩
        · rw [if_neg hc]
          constructor
          · intro hm
            obtain ⟨h1, h2, h3⟩ := ih.mp hm
            exact ⟨h1, Nat.lt_succ_of_lt h2, h3⟩
          · rintro ⟨rfl, hlt, hz⟩
            refine ih.mpr ⟨rfl, ?_, hz⟩
            rcases Nat.lt_succ_iff_lt_or_eq.mp hlt with hlt' | hlt'
            · exact hlt'
            · subst hlt'
              rw [hz] at hl
              injection hl with hl
              exact absurd hl.symm hc

theorem mem_find_chunks {rs : List (List Nat)} :
    ∀ (cr : List Nat) (ci0 : Nat) (L : List RowPtr), find_chunks rs cr ci0 = some L →
      ∀ (ci ri : Nat),
      (RowPtr.new ci ri ∈ L ↔
        ∃ k, k < cr.length ∧ ci = ci0 + k ∧ ri < cr.getD k 0 ∧ lookup2 rs ci ri = some 0)
  | [], ci0, L, h, ci, ri => by
    injection h with h
    subst h
    simp
  | n :: rest, ci0, L, h, ci, ri => by
    unfold find_chunks at h
    cases hf : find_rows rs ci0 n with
    | none => rw [hf] at h; cases h
    | some here =>
      rw [hf] at h
      cases hc : find_chunks rs rest (ci0 + 1) with
      | none => rw [hc] at h; cases h
      | some there =>
        rw [hc] at h
        injection h with h
        subst h
        have ihr := mem_find_rows n here hf ci ri
        have ihc := mem_find_chunks rest (ci0 + 1) there hc ci ri
        simp only [List.mem_append]
        constructor
        · rintro (hm | hm)
          · obtain ⟨h1, h2, h3⟩ := ihr.mp hm
            exact ⟨0, by simp, by omega, by simpa using h2, by rw [h1]; exact h3⟩
          · obtain ⟨k, h1, h2, h3, h4⟩ := ihc.mp hm
            exact ⟨k + 1, by simpa using h1, by omega, by simpa using h3, h4⟩
        · rintro ⟨k, h1, h2, h3, h4⟩
          cases k with
          | zero =>
            left
            have hci : ci = ci0 := by omega
            subst hci
            exact ihr.mpr ⟨rfl, by simpa using h3, h4⟩
          | succ k =>
            right
            exact ihc.mpr ⟨k, by simpa using h1, by omega, by simpa using h3, h4⟩

theorem find_chunks_isSome {rs : List (List Nat)} :
    ∀ (cr : List Nat) (ci0 : Nat),
      (∀ k, k < cr.length → ∃ row, rs.get? (ci0 + k) = some row ∧ cr.getD k 0 ≤ row.length) →
      ∃ L, find_chunks rs cr ci0 = some L
  | [], _, _ => ⟨[], rfl⟩
  | n :: rest, ci0, h => by
    obtain ⟨row, hrow, hle⟩ := h 0 (by simp)
    rw [Nat.add_zero] at hrow
    have hn : n ≤ row.length := by simpa using hle
    obtain ⟨here, hhere⟩ := find_rows_isSome hrow n hn
    obtain ⟨there, hthere⟩ := find_chunks_isSome rest (ci0 + 1) (fun k hk => by
      obtain ⟨row', hrow', hle'⟩ := h (k + 1) (by simpa using hk)
      refine ⟨row', ?_, by simpa using hle'⟩
      rw [← hrow']
      congr 1
      omega)
    refine ⟨here ++ there, ?_⟩
    unfold find_chunks
    rw [hhere, hthere]

/-- C1: for a row state computed by `row_state_for_right_join` and any stored
build row `(ci, ri)`, the row's counter is zero exactly when its `RowPtr`
appears in the list returned by `find_unmatched_build_indexes` applied to that
row state. -/
theorem unmatched_iff_count_zero (jt : JoinType) (bi : List RowPtr) (cr : List Nat)
    (rs : List (List Nat)) (ci ri : Nat)
    (hrs : row_state_for_right_join jt bi cr = some rs)
    (hci : ci < cr.length) (hri : ri < cr.getD ci 0) :
    ∃ L, find_unmatched_build_indexes cr rs = some L ∧
      (lookup2 rs ci ri = some 0 ↔ RowPtr.new ci ri ∈ L) := by
  obtain ⟨hlen, hshape⟩ := row_state_shape hrs
  obtain ⟨L, hL⟩ := find_chunks_isSome cr 0 (fun k hk => by
    obtain ⟨row, hrow, hrlen⟩ := hshape k hk
    exact ⟨row, by simpa using hrow, hrlen ▸ Nat.le_refl _⟩)
  refine ⟨L, hL, ?_⟩
  have hmem := mem_find_chunks cr 0 L hL ci ri
  constructor
  · intro hz
    exact hmem.mpr ⟨ci, hci, by omega, hri, hz⟩
  · intro hm
    obtain ⟨k, _, _, _, hz⟩ := hmem.mp hm
    exact hz

/-- C1 (witness). -/
theorem unmatched_iff_count_zero_witness :
    ∃ L, find_unmatched_build_indexes [2] [[1, 0]] = some L ∧
      (lookup2 [[1, 0]] 0 1 = some 0 ↔ RowPtr.new 0 1 ∈ L) :=
  unmatched_iff_count_zero JoinType.Inner [RowPtr.new 0 0] [2] [[1, 0]] 0 1
    (by decide) (by decide) (by decide)

theorem mark_valids_sound {num_rows : Nat} : ∀ (cs : List Column) (acc : Option (List Bool))
    (v : List Bool) (i : Nat),
    (∀ c ∈ cs, Column.len c = num_rows) →
    (∀ a, acc = some a → a.length = num_rows) →
    i < num_rows →
    mark_valids num_rows cs acc = some v →
    v.getD i false = false →
    (∃ a, acc = some a ∧ a.getD i false = false) ∨
      ∃ c ∈ cs, ∃ inner w, c = Column.Nullable inner w ∧ w.getD i true = false
  | [], _, v, _, _, _, _, h, hfalse => Or.inl ⟨v, h, hfalse⟩
  | c :: rest, acc, v, i, hlen, hacc, hi, h, hfalse => by
    cases c with
    | Nullable inner w =>
      by_cases hub : unset_bits w = 0
      · have h1 : (if unset_bits w = 0 then some (List.replicate num_rows true)
            else mark_valids num_rows rest (combine_validities_3 acc (some w))) = some v := h
        rw [if_pos hub] at h1
        injection h1 with h1
        rw [← h1, getD_replicate true hi] at hfalse
        cases hfalse
      · have h1 : (if unset_bits w = 0 then some (List.replicate num_rows true)
            else mark_valids num_rows rest (combine_validities_3 acc (some w))) = some v := h
        rw [if_neg hub] at h1
        have hwlen : w.length = num_rows := by
          simpa [Column.len] using hlen (Column.Nullable inner w) (List.mem_cons_self _ _)
        have hacc' : ∀ a, combine_validities_3 acc (some w) = some a → a.length = num_rows := by
          intro a ha
          cases acc with
          | none =>
            simp only [combine_validities_3, Option.some.injEq] at ha
            rw [← ha]
            exact hwlen
          | some a0 =>
            simp only [combine_validities_3, Option.some.injEq] at ha
            rw [← ha]
            simp only [List.length_zipWith, hacc a0 rfl, hwlen, Nat.min_self]
        have ih := mark_valids_sound rest (combine_validities_3 acc (some w)) v i
          (fun c hc => hlen c (List.mem_cons_of_mem _ hc)) hacc' hi h1 hfalse
        rcases ih with ⟨a, ha, hafalse⟩ | ⟨c, hc, inner', w', hceq, hw⟩
        · cases acc with
          | none =>
            simp only [combine_validities_3, Option.some.injEq] at ha
            subst ha
            right
            refine ⟨Column.Nullable inner w, List.mem_cons_self _ _, inner, w, rfl, ?_⟩
            rw [getD_default_eq (by omega : i < w.length) true false]
            exact hafalse
          | some a0 =>
            simp only [combine_validities_3, Option.some.injEq] at ha
            subst ha
            have hzlen : (List.zipWith (· && ·) a0 w).length = num_rows := by
              simp only [List.length_zipWith, hacc a0 rfl, hwlen, Nat.min_self]
            have hget : (List.zipWith (· && ·) a0 w).get? i = some false := by
              have hg := get?_of_getD (l := List.zipWith (· && ·) a0 w) (i := i)
                (by omega) false
              rw [hafalse] at hg
              exact hg
            rcases zipWith_and_get?_false a0 w i hget with h0 | h0
            · exact Or.inl ⟨a0, rfl, getD_of_get? h0 false⟩
            · exact Or.inr ⟨Column.Nullable inner w, List.mem_cons_self _ _, inner, w, rfl,
                getD_of_get? h0 true⟩
        · exact Or.inr ⟨c, List.mem_cons_of_mem _ hc, inner', w', hceq, hw⟩
    | Null l =>
      have h1 : mark_valids num_rows rest acc = some v := h
      have ih := mark_valids_sound rest acc v i
        (fun c hc => hlen c (List.mem_cons_of_mem _ hc)) hacc hi h1 hfalse
      rcases ih with hL | ⟨c, hc, inner', w', hceq, hw⟩
      · exact Or.inl hL
      · exact Or.inr ⟨c, List.mem_cons_of_mem _ hc, inner', w', hceq, hw⟩
    | Boolean bits =>
      have h1 : some (List.replicate num_rows true) = some v := h
      injection h1 with h1
      rw [← h1, getD_replicate true hi] at hfalse
      cases hfalse
    | Int vals =>
      have h1 : some (List.replicate num_rows true) = some v := h
      injection h1 with h1
      rw [← h1, getD_replicate true hi] at hfalse
      cases hfalse

theorem init_markers_eq_of_some {cols : List (Column × DataType)} {num_rows : Nat}
    {v : List Bool}
    (hany : (cols.any fun cd =>
      match cd.1 with
      | Column.Null _ => true
      | Column.Nullable _ _ => true
      | _ => false) = true)
    (hmv : mark_valids num_rows (cols.map Prod.fst) none = some v) :
    init_markers cols num_rows = (List.range num_rows).map
      (fun idx => if v.getD idx false = true then MarkerKind.False else MarkerKind.Null) := by
  unfold init_markers
  rw [if_pos hany, hmv]

theorem init_markers_eq_false_of_none {cols : List (Column × DataType)} {num_rows : Nat}
    (hmv : mark_valids num_rows (cols.map Prod.fst) none = none) :
    init_markers cols num_rows = List.replicate num_rows MarkerKind.False := by
  unfold init_markers
  by_cases hany : (cols.any fun cd =>
      match cd.1 with
      | Column.Null _ => true
      | Column.Nullable _ _ => true
      | _ => false) = true
  · rw [if_pos hany, hmv]
  · rw [if_neg hany]

theorem init_markers_eq_false_of_not_any {cols : List (Column × DataType)} {num_rows : Nat}
    (hany : ¬ (cols.any fun cd =>
      match cd.1 with
      | Column.Null _ => true
      | Column.Nullable _ _ => true
      | _ => false) = true) :
    init_markers cols num_rows = List.replicate num_rows MarkerKind.False := by
  unfold init_markers
  rw [if_neg hany]

/-- C3 (counterexample): a contributing `Column::Null` column holds a null at
row 0, yet `init_markers` leaves the marker `False` rather than `Null`,
because the scan loop skips `Column::Null` columns without recording their
nulls. -/
theorem init_markers_all_null_column_cex :
    column_holds_null_at (Column.Null 1) 0 = true
    ∧ init_markers [(Column.Null 1, DataType.Null)] 1 = [MarkerKind.False] := by decide

/-- C3 (amended): when every contributing column has `num_rows` rows,
`init_markers` produces a vector of length `num_rows` containing only `Null`
and `False` markers (never `True`), and a `Null` marker appears only at a row
where at least one contributing column holds a null value; the converse fails
(see the counterexample), so the set of `Null` rows is a subset, not the exact
set, of the rows with a null. -/
theorem init_markers_null_sound (cols : List (Column × DataType)) (num_rows : Nat) (i : Nat)
    (hlen : ∀ cd ∈ cols, Column.len cd.1 = num_rows) (hi : i < num_rows) :
    (init_markers cols num_rows).length = num_rows
    ∧ ((init_markers cols num_rows).get? i = some MarkerKind.Null ∨
       (init_markers cols num_rows).get? i = some MarkerKind.False)
    ∧ ((init_markers cols num_rows).get? i = some MarkerKind.Null →
        ∃ cd ∈ cols, column_holds_null_at cd.1 i = true) := by
  have hrep : (List.replicate num_rows MarkerKind.False).get? i = some MarkerKind.False := by
    simp [List.get?_eq_getElem?, List.getElem?_replicate, hi]
  by_cases hany : (cols.any fun cd =>
      match cd.1 with
      | Column.Null _ => true
      | Column.Nullable _ _ => true
      | _ => false) = true
  · cases hmv : mark_valids num_rows (cols.map Prod.fst) none with
    | none =>
      rw [init_markers_eq_false_of_none hmv]
      refine ⟨List.length_replicate .., Or.inr hrep, fun hnull => ?_⟩
      rw [hrep] at hnull
      cases hnull
    | some v =>
      rw [init_markers_eq_of_some hany hmv]
      have hget : ((List.range num_rows).map
          (fun idx => if v.getD idx false = true then MarkerKind.False
            else MarkerKind.Null)).get? i =
          some (if v.getD i false = true then MarkerKind.False else MarkerKind.Null) := by
        rw [List.get?_map, List.get?_range hi]
        rfl
      refine ⟨by simp, ?_, ?_⟩
      · rw [hget]
        by_cases hb : v.getD i false = true
        · right
          rw [if_pos hb]
        · left
          rw [if_neg hb]
      · intro hnull
        rw [hget] at hnull
        by_cases hb : v.getD i false = true
        · rw [if_pos hb] at hnull
          cases hnull
        · have hbf : v.getD i false = false := by
            cases hvb : v.getD i false
            · rfl
            · exact absurd hvb hb
          have hsound := mark_valids_sound (cols.map Prod.fst) none v i
            (fun c hc => by
              obtain ⟨cd, hcd, hcdeq⟩ := List.mem_map.mp hc
              rw [← hcdeq]
              exact hlen cd hcd)
            (fun a ha => by cases ha) hi hmv hbf
          rcases hsound with ⟨a, ha, _⟩ | ⟨c, hc, inner, w, rfl, hw⟩
          · cases ha
          · obtain ⟨cd, hcd, hcdeq⟩ := List.mem_map.mp hc
            refine ⟨cd, hcd, ?_⟩
            rw [hcdeq]
            have hch : column_holds_null_at (Column.Nullable inner w) i = !(w.getD i true) := rfl
            rw [hch, hw]
            rfl
  · rw [init_markers_eq_false_of_not_any hany]
    refine ⟨List.length_replicate .., Or.inr hrep, fun hnull => ?_⟩
    rw [hrep] at hnull
    cases hnull

/-- C3 (witness). -/
theorem init_markers_null_sound_witness :
    ((init_markers [(Column.Nullable (Column.Int [1, 2]) [true, false],
        DataType.Nullable DataType.Int)] 2).get? 1 = some MarkerKind.Null ∨
     (init_markers [(Column.Nullable (Column.Int [1, 2]) [true, false],
        DataType.Nullable DataType.Int)] 2).get? 1 = some MarkerKind.False) :=
  (init_markers_null_sound [(Column.Nullable (Column.Int [1, 2]) [true, false],
    DataType.Nullable DataType.Int)] 2 1 (by decide) (by decide)).2.1

/-- C10 (witness). -/
theorem set_validity_scalar_bit0_witness :
    set_validity ⟨0, Value.Scalar (Scalar.Bool true), DataType.Boolean⟩ [false, true] =
      some ⟨0, Value.Scalar
        (if ([false, true] : List Bool).headD false = true then Scalar.Bool true
         else Scalar.Null), DataType.Boolean.wrap_nullable⟩ :=
  (set_validity_scalar_bit0 0 (Scalar.Bool true) DataType.Boolean [false, true] (by decide)).1

end HashJoin
